/-
Verification of the persistent announcement scheduler of the bhangra-bot
repository (src/utils/task_scheduler.py).

The Python module is shallowly embedded below:

* Python `datetime` values are modelled at minute granularity (the source
  only ever reads `.year/.month/.day/.hour/.minute`, `.weekday()` and
  compares with `<`, which is lexicographic on the fields).
* `datetime.fromisoformat` on a stored string either yields a datetime or
  raises; a stored datetime field is therefore modelled as either a valid
  parsed value or an invalid (unparseable) one.
* APScheduler triggers (DateTrigger / CronTrigger) are modelled as an
  inductive `Trigger`; an omitted cron field is a wildcard, per the
  APScheduler defaulting rules for fields above the least significant
  explicitly given field.  The scheduler's job registry is an association
  list from job id to trigger.
* File-system state for the Store is modelled as optional file contents for
  the canonical file, the single backup slot and the temporary file.
* A raised-and-propagated Python exception is an `Except.error`; a
  raised-but-caught exception is a value that the catching function turns
  back into its fallback result.
-/
import Mathlib

/-- A naive Python datetime at minute granularity (the scheduler never
inspects seconds or finer). -/
structure DateTime where
  year : Int
  month : Int
  day : Int
  hour : Int
  minute : Int
deriving DecidableEq, Repr

/-- Python datetime comparison `a < b`: lexicographic on the fields. -/
def dtLt (a b : DateTime) : Bool :=
  if a.year ≠ b.year then a.year < b.year
  else if a.month ≠ b.month then a.month < b.month
  else if a.day ≠ b.day then a.day < b.day
  else if a.hour ≠ b.hour then a.hour < b.hour
  else a.minute < b.minute

/-- Days since 1970-01-01 of a civil date (proleptic Gregorian),
the standard civil-from-days inverse used by C++/Python date libraries. -/
def days_from_civil (y m d : Int) : Int :=
  let y' := if m ≤ 2 then y - 1 else y
  let era := (if 0 ≤ y' then y' else y' - 399) / 400
  let yoe := y' - era * 400
  let mp := (m + 9) % 12
  let doy := (153 * mp + 2) / 5 + d - 1
  let doe := yoe * 365 + yoe / 4 - yoe / 100 + doy
  era * 146097 + doe - 719468

/-- Python `datetime.weekday()`: Monday = 0 … Sunday = 6.
1970-01-01 was a Thursday, whose Python weekday is 3. -/
def pyWeekday (t : DateTime) : Int :=
  (days_from_civil t.year t.month t.day + 3) % 7

/-- Gregorian leap year, as in the calendar Python datetimes live in. -/
def is_leap (y : Int) : Prop :=
  (y % 4 = 0 ∧ ¬(y % 100 = 0)) ∨ y % 400 = 0

instance (y : Int) : Decidable (is_leap y) :=
  inferInstanceAs (Decidable ((y % 4 = 0 ∧ ¬(y % 100 = 0)) ∨ y % 400 = 0))

/-- Number of days in a month of the Gregorian calendar. -/
def days_in_month (y m : Int) : Int :=
  if m = 2 then (if is_leap y then 29 else 28)
  else if m = 4 then 30
  else if m = 6 then 30
  else if m = 9 then 30
  else if m = 11 then 30
  else 31

/-- A calendar date a Python datetime can hold: year at least MINYEAR = 1
and a real day of a real month. -/
def valid_date (t : DateTime) : Prop :=
  1 ≤ t.year ∧ 1 ≤ t.month ∧ t.month ≤ 12 ∧ 1 ≤ t.day ∧
    t.day ≤ days_in_month t.year t.month

instance (t : DateTime) : Decidable (valid_date t) :=
  inferInstanceAs (Decidable (1 ≤ t.year ∧ 1 ≤ t.month ∧ t.month ≤ 12 ∧ 1 ≤ t.day ∧
    t.day ≤ days_in_month t.year t.month))

/-- The next calendar day at the same clock time (Python
datetime + timedelta(days=1)). -/
def next_day (t : DateTime) : DateTime :=
  if t.day < days_in_month t.year t.month then
    ⟨t.year, t.month, t.day + 1, t.hour, t.minute⟩
  else if t.month < 12 then ⟨t.year, t.month + 1, 1, t.hour, t.minute⟩
  else ⟨t.year + 1, 1, 1, t.hour, t.minute⟩

/-- A stored datetime string, abstracted to whether
`datetime.fromisoformat` parses it (and to what) or raises. -/
inductive DTField where
  | valid (d : DateTime)
  | invalid
deriving DecidableEq, Repr

/-- `datetime.fromisoformat`: returns the parsed datetime or raises
`ValueError` (modelled as `Except.error`). -/
def fromisoformat : DTField → Except String DateTime
  | .valid d => .ok d
  | .invalid => .error "ValueError"

/-- One persisted announcement record (the dict built in
`create_announcement` / stored in `data/announcements.json`). -/
structure Announcement where
  id : String
  type : String
  text : String
  location : Option String
  practice_time : Option String
  datetime : DTField
  repeating : String
  role_id : Int
  created_by : Int
  created_at : String
deriving DecidableEq, Repr

/-- An APScheduler trigger as built by `_schedule_job`.  A `none` cron
field is a wildcard (APScheduler defaults fields above the least
significant given field to `*`). -/
inductive Trigger where
  | date (run_date : DateTime)
  | cron (day_of_week : Option Int) (day : Option Int) (hour : Int) (minute : Int)
deriving DecidableEq, Repr

/-- The failure mode of trigger construction for an unrecognized
recurrence literal (the spec's `InvalidRecurrenceError`; the source
signals it by logging and returning from `_schedule_job` without
scheduling). -/
inductive TriggerError where
  | invalidRecurrence
deriving DecidableEq, Repr

/-- The recurrence literals recognized by `_schedule_job`'s if/elif chain. -/
def recognized_recurrence (r : String) : Bool :=
  r == "none" || r == "daily" || r == "weekly" || r == "monthly"

/-- The Trigger Calculator: the trigger-construction if/elif chain of
`_schedule_job` (lines 147-161), as a pure function. -/
def build_rule (t : DateTime) (repeating : String) : Except TriggerError Trigger :=
  if repeating == "none" then .ok (.date t)
  else if repeating == "daily" then .ok (.cron none none t.hour t.minute)
  else if repeating == "weekly" then .ok (.cron (some (pyWeekday t)) none t.hour t.minute)
  else if repeating == "monthly" then .ok (.cron none (some t.day) t.hour t.minute)
  else .error .invalidRecurrence

/-- When a trigger fires: a date trigger at exactly its run date, a cron
trigger at every datetime matching all its given fields (a `none` field
matches anything). -/
def trigger_fires_at : Trigger → DateTime → Bool
  | .date rd, t => t == rd
  | .cron dow dom h mi, t =>
      (match dow with | some w => pyWeekday t == w | none => true) &&
      (match dom with | some d => t.day == d | none => true) &&
      t.hour == h && t.minute == mi

/-- The in-memory job registry: announcement id to live trigger. -/
abbrev JobTable := List (String × Trigger)

/-- `scheduler.remove_job(id)` (with its failure swallowed): drop any
entry with the given id. -/
def remove_job (jobs : JobTable) (aid : String) : JobTable :=
  List.filter (fun j => !(j.1 == aid)) jobs

/-- `TaskScheduler._schedule_job`: parse the stored datetime (may raise),
drop any existing job under the id, build the trigger (unknown repeating:
log and return without scheduling), then register the job. -/
def schedule_job (jobs : JobTable) (a : Announcement) : Except String JobTable :=
  match fromisoformat a.datetime with
  | .error e => .error e
  | .ok t =>
    let jobs' := remove_job jobs a.id
    match build_rule t a.repeating with
    | .error _ => .ok jobs'
    | .ok trig => .ok (jobs' ++ [(a.id, trig)])

/-- The recovery loop's skip condition: a one-shot whose stored time is
strictly in the past.  (An unparseable datetime never reaches the check;
the loop raises first.) -/
def is_missed (now : DateTime) (a : Announcement) : Bool :=
  (a.repeating == "none") &&
    (match a.datetime with
     | .valid d => dtLt d now
     | .invalid => false)

/-- Outcome of `load_and_reschedule_announcements`: the job registry, the
two counters, the Store contents (never written by recovery) and the
exception that escaped the loop, if any. -/
structure RecoveryResult where
  jobs : JobTable
  rescheduled : Nat
  skipped : Nat
  store : List Announcement
  error : Option String
deriving DecidableEq, Repr

/-- The `for announcement in announcements` loop of
`load_and_reschedule_announcements` (lines 42-53).  There is no
try/except around the body: the first exception (e.g. from
`fromisoformat`) aborts the loop and propagates, leaving the jobs
registered so far in place. -/
def reschedule_loop (now : DateTime) (jobs : JobTable) (resch skip : Nat)
    (store : List Announcement) : List Announcement → RecoveryResult
  | [] => ⟨jobs, resch, skip, store, none⟩
  | a :: rest =>
    match fromisoformat a.datetime with
    | .error e => ⟨jobs, resch, skip, store, some e⟩
    | .ok t =>
      if a.repeating == "none" && dtLt t now then
        reschedule_loop now jobs resch (skip + 1) store rest
      else
        match schedule_job jobs a with
        | .error e => ⟨jobs, resch, skip, store, some e⟩
        | .ok jobs' => reschedule_loop now jobs' (resch + 1) skip store rest

/-- `TaskScheduler.load_and_reschedule_announcements`, run over the loaded
Store contents with the current time `now`. -/
def load_and_reschedule_announcements (store : List Announcement) (now : DateTime) :
    RecoveryResult :=
  reschedule_loop now [] 0 0 store store

/-- Outcome of `delete_announcement`: the returned boolean, the resulting
Store contents, and whether a write to storage was performed. -/
structure DeleteResult where
  returned : Bool
  store : List Announcement
  wrote : Bool
deriving DecidableEq, Repr

/-- `TaskScheduler.delete_announcement` (lines 98-128) at the level of the
stored collection: filter out every record with the id; if nothing was
removed return false without writing, else persist the filtered list and
return true (job cancellation failure is swallowed). -/
def delete_announcement (anns : List Announcement) (aid : String) : DeleteResult :=
  let filtered := List.filter (fun a => !(a.id == aid)) anns
  if filtered.length == anns.length then
    ⟨false, anns, false⟩
  else
    ⟨true, filtered, true⟩

/-- `TaskScheduler.create_announcement` (lines 57-96) at the level of the
stored collection: build the record (the fresh uuid and creation
timestamp are parameters here) and append it to the Store. -/
def create_announcement (anns : List Announcement)
    (announcement_type : String) (text : String) (location : Option String)
    (datetime_str : DTField) (repeating : String) (role_id : Int)
    (created_by : Int) (practice_time : Option String)
    (fresh_id : String) (now_iso : String) :
    Announcement × List Announcement :=
  let a : Announcement :=
    { id := fresh_id, type := announcement_type, text := text,
      location := location, practice_time := practice_time,
      datetime := datetime_str, repeating := repeating, role_id := role_id,
      created_by := created_by, created_at := now_iso }
  (a, anns ++ [a])

/-- The environment a firing callback runs in: whether the announcement
channel resolves, the role mention if the role resolves, and whether
`channel.send` succeeds. -/
structure FireEnv where
  channel_exists : Bool
  role_mention : Option String
  delivery_ok : Bool
deriving DecidableEq, Repr

/-- Message rendering inside `_execute_announcement` (lines 198-203). -/
def render_message (env : FireEnv) (a : Announcement) : String :=
  let mention := (env.role_mention).getD ""
  if a.type == "practice" then
    mention ++ "\n\n**Practice Announcement**\n**Time:** " ++
      ((a.practice_time).getD "TBD") ++ "\n**Location:** " ++
      ((a.location).getD "None")
  else
    mention ++ "\n\n" ++ a.text

/-- The body of `TaskScheduler._execute_announcement`'s try block
(lines 176-212): reload the Store, find the record, resolve the channel,
send, and for a one-shot delete the record.  An `Except.error` is an
exception reaching the except handler. -/
def execute_announcement_body (anns : List Announcement) (aid : String)
    (env : FireEnv) : Except String (List Announcement) :=
  match List.find? (fun a => a.id == aid) anns with
  | none => .ok anns
  | some a =>
    if !env.channel_exists then .ok anns
    else
      let _msg := render_message env a
      if !env.delivery_ok then .error "DeliveryError"
      else if a.repeating == "none" then
        .ok (delete_announcement anns aid).store
      else .ok anns

/-- `TaskScheduler._execute_announcement` (lines 174-215): the whole body
runs inside try/except, so any exception is caught and logged and the
Store is left as loaded. -/
def execute_announcement (anns : List Announcement) (aid : String)
    (env : FireEnv) : List Announcement :=
  match execute_announcement_body anns aid env with
  | .ok anns' => anns'
  | .error _ => anns

/-- A JSON value, for the persisted file layout. -/
inductive Json where
  | null
  | bool (b : Bool)
  | num (n : Int)
  | str (s : String)
  | arr (xs : List Json)
  | obj (fields : List (String × Json))

/-- Python `dict.get` on a JSON object's field list. -/
def jsonGet (fields : List (String × Json)) (k : String) : Option Json :=
  match fields with
  | [] => none
  | (k', v) :: rest => if k' == k then some v else jsonGet rest k

/-- The state of the announcements file as a reader sees it: absent,
present but not parseable as JSON, or parsed to a JSON value. -/
inductive FileContent where
  | absent
  | malformed
  | parsed (j : Json)

/-- `TaskScheduler._load_announcements` (lines 223-235): missing file or
any exception (parse failure, `.get` on a non-dict) yields the empty
list; otherwise `data.get('announcements', [])`. -/
def load_announcements : FileContent → Json
  | .absent => .arr []
  | .malformed => .arr []
  | .parsed (.obj fields) => (jsonGet fields "announcements").getD (.arr [])
  | .parsed _ => .arr []

/-- File-system state around the Store: contents of the canonical
announcements file, the single backup slot, and the temporary file
(`none` = the file does not exist). -/
structure FsState where
  canonical : Option String
  backup : Option String
  temp : Option String
deriving DecidableEq, Repr

/-- Injected failure point for `_write_announcements`: no failure, or a
failure after the temporary file is fully written but before the swap
into place. -/
inductive WriteFail where
  | noFail
  | beforeSwap
deriving DecidableEq, Repr

/-- The except handler of `_write_announcements` (lines 258-260): if a
backup exists, rename it back over the canonical file. -/
def restore_backup (s : FsState) : FsState :=
  match s.backup with
  | some b => { s with canonical := some b, backup := none }
  | none => s

/-- `TaskScheduler._write_announcements` (lines 237-261): move the
canonical file to the backup slot, write the new contents to the
temporary file, rename it into place.  On the injected failure the
handler restores the backup and the exception is re-raised (the returned
Bool is true iff an exception propagated to the caller). -/
def write_announcements (s : FsState) (content : String) (fail : WriteFail) :
    FsState × Bool :=
  let s1 : FsState :=
    match s.canonical with
    | some c => { canonical := none, backup := some c, temp := s.temp }
    | none => s
  let s2 := { s1 with temp := some content }
  match fail with
  | .beforeSwap => (restore_backup s2, true)
  | .noFail => ({ canonical := some content, backup := s2.backup, temp := none }, false)

/-- Whether the stored datetime of a record parses (fromisoformat does
not raise on it). -/
def parses_ok (a : Announcement) : Bool :=
  match a.datetime with
  | .valid _ => true
  | .invalid => false

/-- Whether processing this record in the recovery loop removes a job
registered under its id without registering a new one: its datetime
parses, it is not skipped as missed, and its recurrence is unrecognized
(schedule_job drops the old job before the trigger construction fails). -/
def removes_id (now : DateTime) (a : Announcement) : Bool :=
  parses_ok a && !(is_missed now a) && !(recognized_recurrence a.repeating)

/-- Helper: a filter that drops some member of the list shortens it. -/
theorem length_filter_ne_of_mem_false {α : Type} (p : α → Bool) :
    ∀ (l : List α) (a : α), a ∈ l → p a = false → (List.filter p l).length ≠ l.length := by
  intro l
  induction l with
  | nil => simp
  | cons b t ih =>
    intro a ha hpa
    rcases List.mem_cons.mp ha with h | ht
    · subst h
      simp only [List.filter_cons, hpa, List.length_cons]
      have := List.length_filter_le p t
      simp only [Bool.false_eq_true, if_neg, ite_false]
      omega
    · cases hb : p b <;>
        simp only [List.filter_cons, hb, List.length_cons, ite_true, ite_false,
          Bool.false_eq_true]
      · have := List.length_filter_le p t
        omega
      · have := ih a ht hpa
        omega

/-- Helper: delete_announcement when some record carries the id. -/
theorem delete_announcement_found (anns : List Announcement) (aid : String)
    (h : ∃ a ∈ anns, a.id = aid) :
    delete_announcement anns aid =
      ⟨true, List.filter (fun a => !(a.id == aid)) anns, true⟩ := by
  obtain ⟨a, ha, hid⟩ := h
  have hlen : (List.filter (fun a => !(a.id == aid)) anns).length ≠ anns.length :=
    length_filter_ne_of_mem_false _ anns a ha (by simp [hid])
  simp [delete_announcement, hlen]

/-- Helper: delete_announcement when no record carries the id. -/
theorem delete_announcement_not_found (anns : List Announcement) (aid : String)
    (h : ∀ a ∈ anns, a.id ≠ aid) :
    delete_announcement anns aid = ⟨false, anns, false⟩ := by
  have hfe : List.filter (fun a => !(a.id == aid)) anns = anns := by
    apply List.filter_eq_self.mpr
    intro a ha
    simp [h a ha]
  simp [delete_announcement, hfe]

/-- C2: if the Store replace fails after the temporary file is written but
before the swap into place, the canonical announcements file is restored
from the single-slot backup, so its contents equal the pre-call contents
byte for byte, and the failure is re-raised to the caller. -/
theorem store_replace_failure_restores_canonical (s : FsState) (content c : String)
    (h : s.canonical = some c) :
    (write_announcements s content .beforeSwap).1.canonical = s.canonical ∧
    (write_announcements s content .beforeSwap).2 = true := by
  simp [write_announcements, h, restore_backup]

/-- Witness for C2 at a concrete file-system state. -/
theorem store_replace_failure_restores_canonical_witness :
    (FsState.mk (some "old") (some "stale") none).canonical = some "old" ∧
    (write_announcements ⟨some "old", some "stale", none⟩ "new" .beforeSwap).1.canonical
      = (FsState.mk (some "old") (some "stale") none).canonical ∧
    (write_announcements ⟨some "old", some "stale", none⟩ "new" .beforeSwap).2 = true := by
  refine ⟨rfl, ?_⟩
  exact store_replace_failure_restores_canonical ⟨some "old", some "stale", none⟩ "new" "old" rfl

/-- C10: a persisted file that parses as a JSON object with no
announcements key loads as the empty collection, without raising, exactly
as when the file is absent. -/
theorem load_missing_key_is_empty (fields : List (String × Json))
    (h : jsonGet fields "announcements" = none) :
    load_announcements (.parsed (.obj fields)) = .arr [] ∧
    load_announcements (.parsed (.obj fields)) = load_announcements .absent := by
  constructor
  · simp [load_announcements, h]
  · simp [load_announcements, h]

/-- Witness for C10 on a concrete one-field object. -/
theorem load_missing_key_is_empty_witness :
    jsonGet [("foo", Json.num 1)] "announcements" = none ∧
    load_announcements (.parsed (.obj [("foo", Json.num 1)])) = .arr [] := by
  refine ⟨rfl, ?_⟩
  exact (load_missing_key_is_empty [("foo", Json.num 1)] rfl).1

/-- C6: if delivery fails during a firing, the stored collection is left
exactly as loaded (a one-shot record is not deleted), and an exception
from the firing body is caught, never propagating out of the callback. -/
theorem delivery_failure_leaves_store (anns : List Announcement) (aid : String)
    (env : FireEnv) (h : env.delivery_ok = false) :
    execute_announcement anns aid env = anns ∧
    (∀ e, execute_announcement_body anns aid env = .error e →
      execute_announcement anns aid env = anns) := by
  constructor
  · unfold execute_announcement execute_announcement_body
    cases hf : List.find? (fun a => a.id == aid) anns with
    | none => rfl
    | some a =>
      cases hch : env.channel_exists <;> simp [h, hch]
  · intro e he
    unfold execute_announcement
    rw [he]

/-- Witness for C6: a failed delivery of a stored one-shot leaves it stored. -/
theorem delivery_failure_leaves_store_witness :
    (FireEnv.mk true (some "@team") false).delivery_ok = false ∧
    execute_announcement
      [⟨"a1", "custom", "hi", none, none, .valid ⟨2026, 2, 15, 16, 0⟩, "none", 5, 7, "c"⟩]
      "a1" ⟨true, some "@team", false⟩ =
      [⟨"a1", "custom", "hi", none, none, .valid ⟨2026, 2, 15, 16, 0⟩, "none", 5, 7, "c"⟩] := by
  refine ⟨rfl, ?_⟩
  exact (delivery_failure_leaves_store _ "a1" ⟨true, some "@team", false⟩ rfl).1

/-- C7: delete returns false and performs no write when no record has the
id; when one does, it persists the filtered collection and returns true;
deleting an id just created returns true and deleting it again returns
false. -/
theorem delete_announcement_contract (anns : List Announcement) (aid : String) :
    ((delete_announcement anns aid).returned = true ↔ ∃ a ∈ anns, a.id = aid) ∧
    ((delete_announcement anns aid).returned = false →
      (delete_announcement anns aid).store = anns ∧
      (delete_announcement anns aid).wrote = false) ∧
    ((delete_announcement anns aid).returned = true →
      (delete_announcement anns aid).store =
        List.filter (fun a => !(a.id == aid)) anns ∧
      (delete_announcement anns aid).wrote = true) ∧
    ((delete_announcement anns aid).returned = true →
      (delete_announcement (delete_announcement anns aid).store aid).returned = false) ∧
    (∀ ty tx loc dts rep rid cb pt niso,
      (delete_announcement
        (create_announcement anns ty tx loc dts rep rid cb pt aid niso).2 aid).returned
        = true) := by
  by_cases h : ∃ a ∈ anns, a.id = aid
  · have hd := delete_announcement_found anns aid h
    rw [hd]
    refine ⟨by simpa using h, by simp, by simp, ?_, ?_⟩
    · intro _
      have : ∀ b ∈ List.filter (fun a => !(a.id == aid)) anns, b.id ≠ aid := by
        intro b hb
        have := (List.mem_filter.mp hb).2
        simpa using this
      simp [delete_announcement_not_found _ aid this]
    · intro ty tx loc dts rep rid cb pt niso
      have : ∃ a ∈ (create_announcement anns ty tx loc dts rep rid cb pt aid niso).2,
          a.id = aid := by
        refine ⟨(create_announcement anns ty tx loc dts rep rid cb pt aid niso).1, ?_, rfl⟩
        simp [create_announcement]
      simp [delete_announcement_found _ aid this]
  · push_neg at h
    have hd := delete_announcement_not_found anns aid h
    rw [hd]
    refine ⟨by simpa using h, by simp, by simp, by simp, ?_⟩
    intro ty tx loc dts rep rid cb pt niso
    have : ∃ a ∈ (create_announcement anns ty tx loc dts rep rid cb pt aid niso).2,
        a.id = aid := by
      refine ⟨(create_announcement anns ty tx loc dts rep rid cb pt aid niso).1, ?_, rfl⟩
      simp [create_announcement]
    simp [delete_announcement_found _ aid this]

/-- Witness for C7 on a concrete store: create then delete twice. -/
theorem delete_announcement_contract_witness :
    (delete_announcement ([] : List Announcement) "u1").returned = false ∧
    (delete_announcement
      (create_announcement [] "custom" "hi" none (.valid ⟨2026, 2, 15, 16, 0⟩)
        "none" 5 7 none "u1" "c").2 "u1").returned = true := by
  constructor
  · have h := delete_announcement_contract ([] : List Announcement) "u1"
    have h1 := h.1
    cases hr : (delete_announcement ([] : List Announcement) "u1").returned
    · rfl
    · exact absurd (h1.mp hr) (by simp)
  · exact (delete_announcement_contract ([] : List Announcement) "u1").2.2.2.2
      "custom" "hi" none (.valid ⟨2026, 2, 15, 16, 0⟩) "none" 5 7 none "c"

/-- C9: when several records share an id, one delete call removes every
record with that id and returns true. -/
theorem delete_announcement_removes_duplicates (anns : List Announcement) (aid : String)
    (h : 2 ≤ anns.countP (fun a => a.id == aid)) :
    (delete_announcement anns aid).returned = true ∧
    (∀ b ∈ (delete_announcement anns aid).store, b.id ≠ aid) := by
  have hex : ∃ a ∈ anns, a.id = aid := by
    have : 0 < anns.countP (fun a => a.id == aid) := by omega
    obtain ⟨a, ha, hp⟩ := List.countP_pos_iff.mp this
    exact ⟨a, ha, by simpa using hp⟩
  rw [delete_announcement_found anns aid hex]
  refine ⟨rfl, ?_⟩
  intro b hb
  have := (List.mem_filter.mp hb).2
  simpa using this

/-- Witness for C9 on a store holding the same id twice. -/
theorem delete_announcement_removes_duplicates_witness :
    2 ≤ (List.countP (fun a => a.id == "d1")
      [(⟨"d1", "custom", "x", none, none, .valid ⟨2026, 1, 1, 9, 0⟩, "none", 1, 2, "c"⟩ :
        Announcement),
       ⟨"d1", "custom", "y", none, none, .valid ⟨2026, 1, 2, 9, 0⟩, "weekly", 1, 2, "c"⟩]) ∧
    (delete_announcement
      [⟨"d1", "custom", "x", none, none, .valid ⟨2026, 1, 1, 9, 0⟩, "none", 1, 2, "c"⟩,
       ⟨"d1", "custom", "y", none, none, .valid ⟨2026, 1, 2, 9, 0⟩, "weekly", 1, 2, "c"⟩]
      "d1").store = [] := by
  refine ⟨by decide, ?_⟩
  have h := delete_announcement_removes_duplicates
    [⟨"d1", "custom", "x", none, none, .valid ⟨2026, 1, 1, 9, 0⟩, "none", 1, 2, "c"⟩,
     ⟨"d1", "custom", "y", none, none, .valid ⟨2026, 1, 2, 9, 0⟩, "weekly", 1, 2, "c"⟩]
    "d1" (by decide)
  have h2 := h.2
  cases hs : (delete_announcement
      [⟨"d1", "custom", "x", none, none, .valid ⟨2026, 1, 1, 9, 0⟩, "none", 1, 2, "c"⟩,
       ⟨"d1", "custom", "y", none, none, .valid ⟨2026, 1, 2, 9, 0⟩, "weekly", 1, 2, "c"⟩]
      "d1").store with
  | nil => rfl
  | cons b t =>
    exfalso
    have hb : b ∈ (delete_announcement
        [⟨"d1", "custom", "x", none, none, .valid ⟨2026, 1, 1, 9, 0⟩, "none", 1, 2, "c"⟩,
         ⟨"d1", "custom", "y", none, none, .valid ⟨2026, 1, 2, 9, 0⟩, "weekly", 1, 2, "c"⟩]
        "d1").store := by
      rw [hs]; exact List.mem_cons_self b t
    have hbid : b.id ≠ "d1" := h2 b hb
    have : b.id = "d1" := by
      have := hb
      rw [delete_announcement_found _ _ ⟨_, List.mem_cons_self _ _, rfl⟩] at this
      have hmem := (List.mem_filter.mp this).1
      rcases List.mem_cons.mp hmem with h1 | h1
      · rw [h1]
      · rcases List.mem_cons.mp h1 with h2' | h2'
        · rw [h2']
        · simp at h2'
    exact hbid this

/-- C1: after a successful firing the record is removed from the Store if
and only if its recurrence is none: the none-recurrence record is deleted
within the same callback (so it is absent from the stored collection),
while a record with any other recurrence value remains stored. -/
theorem firing_removes_iff_one_shot (anns : List Announcement) (aid : String)
    (a : Announcement) (env : FireEnv)
    (hfind : List.find? (fun b => b.id == aid) anns = some a)
    (hch : env.channel_exists = true) (hok : env.delivery_ok = true) :
    execute_announcement anns aid env =
      (if a.repeating == "none" then List.filter (fun b => !(b.id == aid)) anns
       else anns) ∧
    (a.repeating = "none" →
      ∀ b ∈ execute_announcement anns aid env, b.id ≠ aid) ∧
    (a.repeating ≠ "none" → a ∈ execute_announcement anns aid env) := by
  have hmem : a ∈ anns := List.mem_of_find?_eq_some hfind
  have hid : a.id = aid := by simpa using List.find?_some hfind
  have hdel : delete_announcement anns aid =
      ⟨true, List.filter (fun b => !(b.id == aid)) anns, true⟩ :=
    delete_announcement_found anns aid ⟨a, hmem, hid⟩
  have hexec : execute_announcement anns aid env =
      (if a.repeating == "none" then List.filter (fun b => !(b.id == aid)) anns
       else anns) := by
    unfold execute_announcement execute_announcement_body
    rw [hfind]
    cases hrep : (a.repeating == "none") <;> simp [hch, hok, hrep, hdel]
  refine ⟨hexec, ?_, ?_⟩
  · intro hnone b hb
    rw [hexec] at hb
    rw [if_pos (by simpa using hnone)] at hb
    have := (List.mem_filter.mp hb).2
    simpa using this
  · intro hnrep
    rw [hexec, if_neg (by simpa using hnrep)]
    exact hmem

/-- Witness for C1: a successful firing of a one-shot deletes it, of a
weekly announcement keeps it. -/
theorem firing_removes_iff_one_shot_witness :
    List.find? (fun b => b.id == "w1")
      [(⟨"w1", "custom", "hi", none, none, .valid ⟨2026, 2, 15, 16, 0⟩, "none", 1, 2, "c"⟩ :
        Announcement)] =
      some ⟨"w1", "custom", "hi", none, none, .valid ⟨2026, 2, 15, 16, 0⟩, "none", 1, 2, "c"⟩ ∧
    execute_announcement
      [⟨"w1", "custom", "hi", none, none, .valid ⟨2026, 2, 15, 16, 0⟩, "none", 1, 2, "c"⟩]
      "w1" ⟨true, none, true⟩ = [] ∧
    execute_announcement
      [⟨"w2", "custom", "hi", none, none, .valid ⟨2026, 2, 15, 16, 0⟩, "weekly", 1, 2, "c"⟩]
      "w2" ⟨true, none, true⟩ =
      [⟨"w2", "custom", "hi", none, none, .valid ⟨2026, 2, 15, 16, 0⟩, "weekly", 1, 2, "c"⟩] := by
  refine ⟨rfl, ?_, ?_⟩
  · have h := firing_removes_iff_one_shot
      [⟨"w1", "custom", "hi", none, none, .valid ⟨2026, 2, 15, 16, 0⟩, "none", 1, 2, "c"⟩]
      "w1" ⟨"w1", "custom", "hi", none, none, .valid ⟨2026, 2, 15, 16, 0⟩, "none", 1, 2, "c"⟩
      ⟨true, none, true⟩ rfl rfl rfl
    rw [h.1]
    rfl
  · have h := firing_removes_iff_one_shot
      [⟨"w2", "custom", "hi", none, none, .valid ⟨2026, 2, 15, 16, 0⟩, "weekly", 1, 2, "c"⟩]
      "w2" ⟨"w2", "custom", "hi", none, none, .valid ⟨2026, 2, 15, 16, 0⟩, "weekly", 1, 2, "c"⟩
      ⟨true, none, true⟩ rfl rfl rfl
    rw [h.1]
    rfl

/-- Helper: the day serial is one larger on the next day of the same
month. -/
theorem days_from_civil_succ_day (y m d : Int) :
    days_from_civil y m (d + 1) = days_from_civil y m d + 1 := by
  simp only [days_from_civil]
  split_ifs <;> omega

set_option maxHeartbeats 1600000 in
/-- Helper: the day serial of the first of the next month is one larger
than that of the last day of the current month. -/
theorem days_from_civil_succ_month (y m : Int) (hy : 1 ≤ y) (hm1 : 1 ≤ m) (hm2 : m ≤ 11) :
    days_from_civil y (m + 1) 1 = days_from_civil y m (days_in_month y m) + 1 := by
  interval_cases m <;>
    simp only [days_from_civil, days_in_month, is_leap] <;>
    split_ifs <;> omega

/-- Helper: the day serial of January 1 is one larger than that of the
preceding December 31. -/
theorem days_from_civil_succ_year (y : Int) (hy : 1 ≤ y) :
    days_from_civil (y + 1) 1 1 = days_from_civil y 12 31 + 1 := by
  simp only [days_from_civil]
  split_ifs <;> omega

/-- Helper: every month has at least one day. -/
theorem days_in_month_pos (y m : Int) : 1 ≤ days_in_month y m := by
  simp only [days_in_month]
  split_ifs <;> omega

/-- Helper: the day after a valid date is a valid date. -/
theorem next_day_valid (t : DateTime) (h : valid_date t) : valid_date (next_day t) := by
  obtain ⟨y, m, d, hh, mi⟩ := t
  obtain ⟨hy, hm1, hm2, hd1, hd2⟩ := h
  simp only at hy hm1 hm2 hd1 hd2
  by_cases h1 : d < days_in_month y m
  · rw [next_day, if_pos (by simpa using h1)]
    refine ⟨hy, hm1, hm2, ?_, ?_⟩ <;> dsimp only <;> omega
  · by_cases h2 : m < 12
    · rw [next_day, if_neg (by simpa using h1), if_pos (by simpa using h2)]
      refine ⟨hy, ?_, ?_, ?_, ?_⟩ <;> dsimp only <;>
        first
        | omega
        | exact days_in_month_pos y (m + 1)
    · rw [next_day, if_neg (by simpa using h1), if_neg (by simpa using h2)]
      refine ⟨?_, ?_, ?_, ?_, ?_⟩ <;> dsimp only <;>
        first
        | omega
        | exact days_in_month_pos (y + 1) 1

/-- Helper: stepping a day keeps the clock time. -/
theorem next_day_hour_minute (t : DateTime) :
    (next_day t).hour = t.hour ∧ (next_day t).minute = t.minute := by
  rw [next_day]
  split_ifs <;> exact ⟨rfl, rfl⟩

/-- Helper: stepping a valid date one day forward raises its day serial
by exactly one, across month and year boundaries and leap years. -/
theorem days_from_civil_next_day (t : DateTime) (h : valid_date t) :
    days_from_civil (next_day t).year (next_day t).month (next_day t).day =
      days_from_civil t.year t.month t.day + 1 := by
  obtain ⟨y, m, d, hh, mi⟩ := t
  obtain ⟨hy, hm1, hm2, hd1, hd2⟩ := h
  simp only at hy hm1 hm2 hd1 hd2
  by_cases h1 : d < days_in_month y m
  · rw [next_day, if_pos (by simpa using h1)]
    exact days_from_civil_succ_day y m d
  · have hd : d = days_in_month y m := by omega
    by_cases h2 : m < 12
    · rw [next_day, if_neg (by simpa using h1), if_pos (by simpa using h2)]
      rw [hd]
      exact days_from_civil_succ_month y m hy hm1 (by omega)
    · have hm12 : m = 12 := by omega
      have hd31 : d = 31 := by
        rw [hd, hm12]
        simp [days_in_month]
      rw [next_day, if_neg (by simpa using h1), if_neg (by simpa using h2)]
      subst hm12
      rw [hd31]
      exact days_from_civil_succ_year y hy

/-- Helper: iterating next_day n times from a valid date stays valid,
advances the day serial by n and keeps the clock time. -/
theorem iterate_next_day_spec (n : Nat) (t : DateTime) (h : valid_date t) :
    valid_date (Nat.iterate next_day n t) ∧
    days_from_civil (Nat.iterate next_day n t).year
        (Nat.iterate next_day n t).month (Nat.iterate next_day n t).day =
      days_from_civil t.year t.month t.day + (n : Int) ∧
    (Nat.iterate next_day n t).hour = t.hour ∧
    (Nat.iterate next_day n t).minute = t.minute := by
  induction n with
  | zero => refine ⟨?_, ?_, ?_, ?_⟩ <;> simp [h]
  | succ k ih =>
    obtain ⟨hv, hdays, hh, hm⟩ := ih
    rw [Function.iterate_succ_apply']
    refine ⟨next_day_valid _ hv, ?_, ?_, ?_⟩
    · rw [days_from_civil_next_day _ hv, hdays]
      push_cast
      ring
    · rw [(next_day_hour_minute _).1, hh]
    · rw [(next_day_hour_minute _).2, hm]

/-- Helper: seven calendar days later the Python weekday is the same. -/
theorem pyWeekday_iterate_seven (t : DateTime) (h : valid_date t) :
    pyWeekday (Nat.iterate next_day 7 t) = pyWeekday t := by
  have hs := (iterate_next_day_spec 7 t h).2.1
  simp only [pyWeekday]
  rw [hs]
  omega

/-- C8: the weekly rule is built from exactly the weekday and clock time
of the original firing datetime, fires at precisely the datetimes sharing
that weekday, hour and minute (the date component is discarded), two
firing datetimes with the same weekday and clock time yield the same
rule, independent of when the rule is built, and the rule fires every
week: shifting any valid calendar date by seven days leaves its firing
status unchanged. -/
theorem weekly_rule_same_weekday_and_time (ft : DateTime) :
    build_rule ft "weekly" =
      .ok (.cron (some (pyWeekday ft)) none ft.hour ft.minute) ∧
    (∀ t : DateTime,
      trigger_fires_at (.cron (some (pyWeekday ft)) none ft.hour ft.minute) t = true ↔
        (pyWeekday t = pyWeekday ft ∧ t.hour = ft.hour ∧ t.minute = ft.minute)) ∧
    (∀ ft' : DateTime, pyWeekday ft' = pyWeekday ft → ft'.hour = ft.hour →
      ft'.minute = ft.minute → build_rule ft' "weekly" = build_rule ft "weekly") ∧
    (∀ t : DateTime, valid_date t →
      trigger_fires_at (.cron (some (pyWeekday ft)) none ft.hour ft.minute)
        (Nat.iterate next_day 7 t) =
      trigger_fires_at (.cron (some (pyWeekday ft)) none ft.hour ft.minute) t) := by
  refine ⟨rfl, ?_, ?_, ?_⟩
  · intro t
    simp [trigger_fires_at, and_assoc]
  · intro ft' h1 h2 h3
    calc build_rule ft' "weekly"
        = .ok (.cron (some (pyWeekday ft')) none ft'.hour ft'.minute) := rfl
      _ = .ok (.cron (some (pyWeekday ft)) none ft.hour ft.minute) := by rw [h1, h2, h3]
      _ = build_rule ft "weekly" := rfl
  · intro t ht
    have hs := iterate_next_day_spec 7 t ht
    simp only [trigger_fires_at]
    rw [pyWeekday_iterate_seven t ht, hs.2.2.1, hs.2.2.2]

/-- Witness for C8: the rule built from Sunday 2026-02-15 16:00 equals the
one built a week later a year on, fires on a matching Sunday, and still
fires seven days after that Sunday. -/
theorem weekly_rule_same_weekday_and_time_witness :
    pyWeekday ⟨2027, 3, 7, 16, 0⟩ = pyWeekday ⟨2026, 2, 15, 16, 0⟩ ∧
    build_rule ⟨2027, 3, 7, 16, 0⟩ "weekly" = build_rule ⟨2026, 2, 15, 16, 0⟩ "weekly" ∧
    trigger_fires_at
      (.cron (some (pyWeekday ⟨2026, 2, 15, 16, 0⟩)) none 16 0) ⟨2026, 2, 22, 16, 0⟩ = true ∧
    valid_date ⟨2026, 2, 22, 16, 0⟩ ∧
    trigger_fires_at (.cron (some (pyWeekday ⟨2026, 2, 15, 16, 0⟩)) none 16 0)
      (Nat.iterate next_day 7 ⟨2026, 2, 22, 16, 0⟩) = true := by
  refine ⟨by decide, ?_, ?_, by decide, ?_⟩
  · exact (weekly_rule_same_weekday_and_time ⟨2026, 2, 15, 16, 0⟩).2.2.1
      ⟨2027, 3, 7, 16, 0⟩ (by decide) rfl rfl
  · exact ((weekly_rule_same_weekday_and_time ⟨2026, 2, 15, 16, 0⟩).2.1
      ⟨2026, 2, 22, 16, 0⟩).mpr ⟨by decide, rfl, rfl⟩
  · calc trigger_fires_at (.cron (some (pyWeekday ⟨2026, 2, 15, 16, 0⟩)) none 16 0)
          (Nat.iterate next_day 7 ⟨2026, 2, 22, 16, 0⟩)
        = trigger_fires_at (.cron (some (pyWeekday ⟨2026, 2, 15, 16, 0⟩)) none 16 0)
          ⟨2026, 2, 22, 16, 0⟩ :=
        (weekly_rule_same_weekday_and_time ⟨2026, 2, 15, 16, 0⟩).2.2.2
          ⟨2026, 2, 22, 16, 0⟩ (by decide)
      _ = true :=
        ((weekly_rule_same_weekday_and_time ⟨2026, 2, 15, 16, 0⟩).2.1
          ⟨2026, 2, 22, 16, 0⟩).mpr ⟨by decide, rfl, rfl⟩

/-- Helper: the trigger construction succeeds exactly on the recognized
recurrence literals. -/
theorem build_rule_ok_iff_recognized (d : DateTime) (rep : String) :
    (∃ trig, build_rule d rep = .ok trig) ↔ recognized_recurrence rep = true := by
  cases h1 : rep == "none" <;> cases h2 : rep == "daily" <;>
    cases h3 : rep == "weekly" <;> cases h4 : rep == "monthly" <;>
    simp [build_rule, recognized_recurrence, h1, h2, h3, h4]

/-- Helper: schedule_job never raises when the stored datetime parses. -/
theorem schedule_job_ok_of_parses (jobs : JobTable) (a : Announcement) (d : DateTime)
    (hdt : a.datetime = .valid d) :
    schedule_job jobs a =
      .ok (match build_rule d a.repeating with
           | .error _ => remove_job jobs a.id
           | .ok trig => remove_job jobs a.id ++ [(a.id, trig)]) := by
  cases hbr : build_rule d a.repeating <;> simp [schedule_job, fromisoformat, hdt, hbr]

/-- Helper: with every datetime in the list parseable the recovery loop
finishes without an exception, never writes the Store, and its counters
are the counts of missed and non-missed records. -/
theorem reschedule_loop_complete (now : DateTime) (store : List Announcement) :
    ∀ (l : List Announcement) (jobs : JobTable) (r s : Nat),
    (∀ a ∈ l, parses_ok a = true) →
    (reschedule_loop now jobs r s store l).error = none ∧
    (reschedule_loop now jobs r s store l).store = store ∧
    (reschedule_loop now jobs r s store l).skipped = s + l.countP (is_missed now) ∧
    (reschedule_loop now jobs r s store l).rescheduled =
      r + l.countP (fun a => !(is_missed now a)) := by
  intro l
  induction l with
  | nil =>
    intro jobs r s _
    simp [reschedule_loop]
  | cons a rest ih =>
    intro jobs r s hv
    have hpa : parses_ok a = true := hv a (List.mem_cons_self a rest)
    have hrest : ∀ b ∈ rest, parses_ok b = true :=
      fun b hb => hv b (List.mem_cons_of_mem a hb)
    cases hdt : a.datetime with
    | invalid => rw [parses_ok, hdt] at hpa; exact absurd hpa (by simp)
    | valid d =>
      have hmiss : is_missed now a = (a.repeating == "none" && dtLt d now) := by
        rw [is_missed, hdt]
      cases hm : (a.repeating == "none" && dtLt d now) with
      | true =>
        have hstep : reschedule_loop now jobs r s store (a :: rest) =
            reschedule_loop now jobs r (s + 1) store rest := by
          simp [reschedule_loop, fromisoformat, hdt, hm]
        rw [hstep]
        obtain ⟨h1, h2, h3, h4⟩ := ih jobs r (s + 1) hrest
        refine ⟨h1, h2, ?_, ?_⟩
        · rw [h3, List.countP_cons]
          simp [hmiss, hm]
          omega
        · rw [h4, List.countP_cons]
          simp [hmiss, hm]
      | false =>
        have hsj := schedule_job_ok_of_parses jobs a d hdt
        have hstep : reschedule_loop now jobs r s store (a :: rest) =
            reschedule_loop now
              (match build_rule d a.repeating with
               | .error _ => remove_job jobs a.id
               | .ok trig => remove_job jobs a.id ++ [(a.id, trig)])
              (r + 1) s store rest := by
          simp [reschedule_loop, fromisoformat, hdt, hm, hsj]
        rw [hstep]
        obtain ⟨h1, h2, h3, h4⟩ := ih _ (r + 1) s hrest
        refine ⟨h1, h2, ?_, ?_⟩
        · rw [h3, List.countP_cons]
          simp [hmiss, hm]
        · rw [h4, List.countP_cons]
          simp [hmiss, hm]
          omega

/-- Helper: a job id stays registered across the rest of the recovery
loop as long as no later record with that id reaches the
unknown-recurrence branch (which removes the old job and schedules
nothing). -/
theorem reschedule_loop_preserves (now : DateTime) (store : List Announcement)
    (aid : String) :
    ∀ (l : List Announcement) (jobs : JobTable) (r s : Nat),
    (∃ j ∈ jobs, j.1 = aid) →
    (∀ b ∈ l, b.id = aid → removes_id now b = false) →
    ∃ j ∈ (reschedule_loop now jobs r s store l).jobs, j.1 = aid := by
  intro l
  induction l with
  | nil =>
    intro jobs r s hj _
    simpa [reschedule_loop] using hj
  | cons a rest ih =>
    intro jobs r s hj hrm
    have hrmrest : ∀ b ∈ rest, b.id = aid → removes_id now b = false :=
      fun b hb => hrm b (List.mem_cons_of_mem a hb)
    cases hdt : a.datetime with
    | invalid =>
      have hstep : reschedule_loop now jobs r s store (a :: rest) =
          ⟨jobs, r, s, store, some "ValueError"⟩ := by
        simp [reschedule_loop, fromisoformat, hdt]
      rw [hstep]
      exact hj
    | valid d =>
      have hmiss : is_missed now a = (a.repeating == "none" && dtLt d now) := by
        rw [is_missed, hdt]
      cases hm : (a.repeating == "none" && dtLt d now) with
      | true =>
        have hstep : reschedule_loop now jobs r s store (a :: rest) =
            reschedule_loop now jobs r (s + 1) store rest := by
          simp [reschedule_loop, fromisoformat, hdt, hm]
        rw [hstep]
        exact ih jobs r (s + 1) hj hrmrest
      | false =>
        have hsj := schedule_job_ok_of_parses jobs a d hdt
        have hstep : reschedule_loop now jobs r s store (a :: rest) =
            reschedule_loop now
              (match build_rule d a.repeating with
               | .error _ => remove_job jobs a.id
               | .ok trig => remove_job jobs a.id ++ [(a.id, trig)])
              (r + 1) s store rest := by
          simp [reschedule_loop, fromisoformat, hdt, hm, hsj]
        rw [hstep]
        obtain ⟨j, hjmem, hjid⟩ := hj
        cases hbr : build_rule d a.repeating with
        | error e =>
          have hrec : recognized_recurrence a.repeating = false := by
            cases hr : recognized_recurrence a.repeating
            · rfl
            · obtain ⟨trig, htrig⟩ := (build_rule_ok_iff_recognized d a.repeating).mpr hr
              rw [hbr] at htrig
              exact absurd htrig (by simp)
          have hane : a.id ≠ aid := by
            intro heq
            have := hrm a (List.mem_cons_self a rest) heq
            rw [removes_id, parses_ok, hdt, hmiss, hm, hrec] at this
            simp at this
          refine ih _ (r + 1) s ⟨j, ?_, hjid⟩ hrmrest
          simp only
          refine List.mem_filter.mpr ⟨hjmem, ?_⟩
          simp only [hjid]
          simpa using Ne.symm hane
        | ok trig =>
          by_cases haid : a.id = aid
          · refine ih _ (r + 1) s ⟨(a.id, trig), ?_, haid⟩ hrmrest
            simp
          · refine ih _ (r + 1) s ⟨j, ?_, hjid⟩ hrmrest
            simp only
            refine List.mem_append_left _ (List.mem_filter.mpr ⟨hjmem, ?_⟩)
            simp only [hjid]
            simpa using Ne.symm haid

/-- Helper: every job registered by the recovery loop either was already
registered or belongs to a processed record that parses, is not missed
and has a recognized recurrence. -/
theorem reschedule_loop_jobs_from (now : DateTime) (store : List Announcement) :
    ∀ (l : List Announcement) (jobs : JobTable) (r s : Nat) (j : String × Trigger),
    j ∈ (reschedule_loop now jobs r s store l).jobs →
    j ∈ jobs ∨ ∃ a ∈ l, a.id = j.1 ∧ parses_ok a = true ∧ is_missed now a = false ∧
      recognized_recurrence a.repeating = true := by
  intro l
  induction l with
  | nil =>
    intro jobs r s j hj
    left
    simpa [reschedule_loop] using hj
  | cons a rest ih =>
    intro jobs r s j hj
    cases hdt : a.datetime with
    | invalid =>
      rw [show reschedule_loop now jobs r s store (a :: rest) =
          ⟨jobs, r, s, store, some "ValueError"⟩ by
        simp [reschedule_loop, fromisoformat, hdt]] at hj
      exact Or.inl hj
    | valid d =>
      have hmiss : is_missed now a = (a.repeating == "none" && dtLt d now) := by
        rw [is_missed, hdt]
      cases hm : (a.repeating == "none" && dtLt d now) with
      | true =>
        rw [show reschedule_loop now jobs r s store (a :: rest) =
            reschedule_loop now jobs r (s + 1) store rest by
          simp [reschedule_loop, fromisoformat, hdt, hm]] at hj
        rcases ih jobs r (s + 1) j hj with h | ⟨b, hb, hrest⟩
        · exact Or.inl h
        · exact Or.inr ⟨b, List.mem_cons_of_mem a hb, hrest⟩
      | false =>
        have hsj := schedule_job_ok_of_parses jobs a d hdt
        rw [show reschedule_loop now jobs r s store (a :: rest) =
            reschedule_loop now
              (match build_rule d a.repeating with
               | .error _ => remove_job jobs a.id
               | .ok trig => remove_job jobs a.id ++ [(a.id, trig)])
              (r + 1) s store rest by
          simp [reschedule_loop, fromisoformat, hdt, hm, hsj]] at hj
        cases hbr : build_rule d a.repeating with
        | error e =>
          rw [hbr] at hj
          rcases ih _ (r + 1) s j hj with h | ⟨b, hb, hrest⟩
          · exact Or.inl (List.mem_filter.mp h).1
          · exact Or.inr ⟨b, List.mem_cons_of_mem a hb, hrest⟩
        | ok trig =>
          rw [hbr] at hj
          rcases ih _ (r + 1) s j hj with h | ⟨b, hb, hrest⟩
          · rcases List.mem_append.mp h with h1 | h1
            · exact Or.inl (List.mem_filter.mp h1).1
            · have hja : j = (a.id, trig) := by simpa using h1
              refine Or.inr ⟨a, List.mem_cons_self a rest, ?_, ?_, ?_, ?_⟩
              · rw [hja]
              · rw [parses_ok, hdt]
              · rw [hmiss, hm]
              · exact (build_rule_ok_iff_recognized d a.repeating).mp ⟨trig, hbr⟩
          · exact Or.inr ⟨b, List.mem_cons_of_mem a hb, hrest⟩

/-- Helper: a record of the processed list that parses, is not missed and
has a recognized recurrence ends up registered, provided every record
sharing its id is harmless (does not reach the unknown-recurrence
branch) and every datetime in the list parses. -/
theorem reschedule_loop_mem (now : DateTime) (store : List Announcement) :
    ∀ (l : List Announcement) (jobs : JobTable) (r s : Nat) (a : Announcement),
    a ∈ l →
    (∀ b ∈ l, parses_ok b = true) →
    is_missed now a = false →
    recognized_recurrence a.repeating = true →
    (∀ b ∈ l, b.id = a.id → removes_id now b = false) →
    ∃ j ∈ (reschedule_loop now jobs r s store l).jobs, j.1 = a.id := by
  intro l
  induction l with
  | nil =>
    intro jobs r s a ha
    exact absurd ha (List.not_mem_nil a)
  | cons c rest ih =>
    intro jobs r s a ha hv hnm hrec hrm
    have hpc : parses_ok c = true := hv c (List.mem_cons_self c rest)
    have hvrest : ∀ b ∈ rest, parses_ok b = true :=
      fun b hb => hv b (List.mem_cons_of_mem c hb)
    have hrmrest : ∀ b ∈ rest, b.id = a.id → removes_id now b = false :=
      fun b hb => hrm b (List.mem_cons_of_mem c hb)
    cases hdt : c.datetime with
    | invalid => rw [parses_ok, hdt] at hpc; exact absurd hpc (by simp)
    | valid d =>
      have hmiss : is_missed now c = (c.repeating == "none" && dtLt d now) := by
        rw [is_missed, hdt]
      rcases List.mem_cons.mp ha with heq | hrest
      · subst heq
        have hm : (a.repeating == "none" && dtLt d now) = false := by
          rw [← hmiss]
          exact hnm
        have hsj := schedule_job_ok_of_parses jobs a d hdt
        obtain ⟨trig, hbr⟩ := (build_rule_ok_iff_recognized d a.repeating).mpr hrec
        have hstep : reschedule_loop now jobs r s store (a :: rest) =
            reschedule_loop now (remove_job jobs a.id ++ [(a.id, trig)])
              (r + 1) s store rest := by
          simp [reschedule_loop, fromisoformat, hdt, hm, hsj, hbr]
        rw [hstep]
        exact reschedule_loop_preserves now store a.id rest _ (r + 1) s
          ⟨(a.id, trig), by simp, rfl⟩ hrmrest
      · cases hm : (c.repeating == "none" && dtLt d now) with
        | true =>
          have hstep : reschedule_loop now jobs r s store (c :: rest) =
              reschedule_loop now jobs r (s + 1) store rest := by
            simp [reschedule_loop, fromisoformat, hdt, hm]
          rw [hstep]
          exact ih jobs r (s + 1) a hrest hvrest hnm hrec hrmrest
        | false =>
          have hsj := schedule_job_ok_of_parses jobs c d hdt
          have hstep : reschedule_loop now jobs r s store (c :: rest) =
              reschedule_loop now
                (match build_rule d c.repeating with
                 | .error _ => remove_job jobs c.id
                 | .ok trig => remove_job jobs c.id ++ [(c.id, trig)])
                (r + 1) s store rest := by
            simp [reschedule_loop, fromisoformat, hdt, hm, hsj]
          rw [hstep]
          exact ih _ (r + 1) s a hrest hvrest hnm hrec hrmrest

/-- Helper: the recovery loop over a concatenation first runs the prefix
(when every prefix datetime parses, the prefix finishes without an
exception) and continues from its accumulated state. -/
theorem reschedule_loop_append (now : DateTime) (store : List Announcement) :
    ∀ (l1 l2 : List Announcement) (jobs : JobTable) (r s : Nat),
    (∀ a ∈ l1, parses_ok a = true) →
    reschedule_loop now jobs r s store (l1 ++ l2) =
      reschedule_loop now (reschedule_loop now jobs r s store l1).jobs
        (reschedule_loop now jobs r s store l1).rescheduled
        (reschedule_loop now jobs r s store l1).skipped store l2 := by
  intro l1
  induction l1 with
  | nil =>
    intro l2 jobs r s _
    simp [reschedule_loop]
  | cons a rest ih =>
    intro l2 jobs r s hv
    have hpa : parses_ok a = true := hv a (List.mem_cons_self a rest)
    have hvrest : ∀ b ∈ rest, parses_ok b = true :=
      fun b hb => hv b (List.mem_cons_of_mem a hb)
    cases hdt : a.datetime with
    | invalid => rw [parses_ok, hdt] at hpa; exact absurd hpa (by simp)
    | valid d =>
      cases hm : (a.repeating == "none" && dtLt d now) with
      | true =>
        have h1 : reschedule_loop now jobs r s store ((a :: rest) ++ l2) =
            reschedule_loop now jobs r (s + 1) store (rest ++ l2) := by
          simp [reschedule_loop, fromisoformat, hdt, hm]
        have h2 : reschedule_loop now jobs r s store (a :: rest) =
            reschedule_loop now jobs r (s + 1) store rest := by
          simp [reschedule_loop, fromisoformat, hdt, hm]
        rw [h1, h2]
        exact ih l2 jobs r (s + 1) hvrest
      | false =>
        have hsj := schedule_job_ok_of_parses jobs a d hdt
        have h1 : reschedule_loop now jobs r s store ((a :: rest) ++ l2) =
            reschedule_loop now
              (match build_rule d a.repeating with
               | .error _ => remove_job jobs a.id
               | .ok trig => remove_job jobs a.id ++ [(a.id, trig)])
              (r + 1) s store (rest ++ l2) := by
          simp [reschedule_loop, fromisoformat, hdt, hm, hsj]
        have h2 : reschedule_loop now jobs r s store (a :: rest) =
            reschedule_loop now
              (match build_rule d a.repeating with
               | .error _ => remove_job jobs a.id
               | .ok trig => remove_job jobs a.id ++ [(a.id, trig)])
              (r + 1) s store rest := by
          simp [reschedule_loop, fromisoformat, hdt, hm, hsj]
        rw [h1, h2]
        exact ih l2 _ (r + 1) s hvrest

/-- C3: during recovery, a stored one-shot whose firing time is strictly
in the past gets no timer and is left in the Store (counted as skipped),
and every other stored announcement (recurring, or one-shot not in the
past) gets a timer and is counted as rescheduled; recovery raises
nothing and never writes the Store. -/
theorem recovery_skips_past_one_shots_schedules_rest
    (store : List Announcement) (now : DateTime)
    (hvalid : ∀ a ∈ store, parses_ok a = true)
    (hrec : ∀ a ∈ store, recognized_recurrence a.repeating = true)
    (huniq : ∀ a ∈ store, ∀ b ∈ store, a.id = b.id → a = b) :
    (load_and_reschedule_announcements store now).error = none ∧
    (load_and_reschedule_announcements store now).store = store ∧
    (load_and_reschedule_announcements store now).skipped =
      store.countP (is_missed now) ∧
    (load_and_reschedule_announcements store now).rescheduled =
      store.countP (fun a => !(is_missed now a)) ∧
    (∀ a ∈ store, is_missed now a = true →
      ∀ j ∈ (load_and_reschedule_announcements store now).jobs, j.1 ≠ a.id) ∧
    (∀ a ∈ store, is_missed now a = false →
      ∃ j ∈ (load_and_reschedule_announcements store now).jobs, j.1 = a.id) := by
  obtain ⟨h1, h2, h3, h4⟩ := reschedule_loop_complete now store store [] 0 0 hvalid
  refine ⟨h1, h2, by simpa using h3, by simpa using h4, ?_, ?_⟩
  · intro a ha hma j hj heq
    rcases reschedule_loop_jobs_from now store store [] 0 0 j hj with
      h | ⟨b, hb, hbid, _, hbnm, _⟩
    · exact absurd h (List.not_mem_nil j)
    · have hba : b = a := huniq b hb a ha (by rw [hbid, heq])
      rw [hba, hma] at hbnm
      exact absurd hbnm (by simp)
  · intro a ha hnm
    apply reschedule_loop_mem now store store [] 0 0 a ha hvalid hnm (hrec a ha)
    intro b hb hbid
    have hba : b = a := huniq b hb a ha hbid
    rw [hba, removes_id]
    simp [hrec a ha]

/-- Witness for C3: a past one-shot is skipped and unscheduled, a future
one-shot and a past weekly both get timers. -/
theorem recovery_skips_past_one_shots_schedules_rest_witness :
    (∀ a ∈ [(⟨"m1", "custom", "x", none, none, .valid ⟨2020, 1, 1, 9, 0⟩, "none", 1, 2, "c"⟩ :
        Announcement),
      ⟨"f1", "custom", "y", none, none, .valid ⟨2030, 1, 1, 9, 0⟩, "none", 1, 2, "c"⟩,
      ⟨"k1", "custom", "z", none, none, .valid ⟨2020, 1, 1, 9, 0⟩, "weekly", 1, 2, "c"⟩],
      parses_ok a = true) ∧
    (load_and_reschedule_announcements
      [⟨"m1", "custom", "x", none, none, .valid ⟨2020, 1, 1, 9, 0⟩, "none", 1, 2, "c"⟩,
       ⟨"f1", "custom", "y", none, none, .valid ⟨2030, 1, 1, 9, 0⟩, "none", 1, 2, "c"⟩,
       ⟨"k1", "custom", "z", none, none, .valid ⟨2020, 1, 1, 9, 0⟩, "weekly", 1, 2, "c"⟩]
      ⟨2026, 10, 12, 9, 0⟩).error = none ∧
    (load_and_reschedule_announcements
      [⟨"m1", "custom", "x", none, none, .valid ⟨2020, 1, 1, 9, 0⟩, "none", 1, 2, "c"⟩,
       ⟨"f1", "custom", "y", none, none, .valid ⟨2030, 1, 1, 9, 0⟩, "none", 1, 2, "c"⟩,
       ⟨"k1", "custom", "z", none, none, .valid ⟨2020, 1, 1, 9, 0⟩, "weekly", 1, 2, "c"⟩]
      ⟨2026, 10, 12, 9, 0⟩).skipped = 1 := by
  refine ⟨by decide, ?_, ?_⟩
  · exact (recovery_skips_past_one_shots_schedules_rest
      [⟨"m1", "custom", "x", none, none, .valid ⟨2020, 1, 1, 9, 0⟩, "none", 1, 2, "c"⟩,
       ⟨"f1", "custom", "y", none, none, .valid ⟨2030, 1, 1, 9, 0⟩, "none", 1, 2, "c"⟩,
       ⟨"k1", "custom", "z", none, none, .valid ⟨2020, 1, 1, 9, 0⟩, "weekly", 1, 2, "c"⟩]
      ⟨2026, 10, 12, 9, 0⟩ (by decide) (by decide) (by decide)).1
  · have h := (recovery_skips_past_one_shots_schedules_rest
      [⟨"m1", "custom", "x", none, none, .valid ⟨2020, 1, 1, 9, 0⟩, "none", 1, 2, "c"⟩,
       ⟨"f1", "custom", "y", none, none, .valid ⟨2030, 1, 1, 9, 0⟩, "none", 1, 2, "c"⟩,
       ⟨"k1", "custom", "z", none, none, .valid ⟨2020, 1, 1, 9, 0⟩, "weekly", 1, 2, "c"⟩]
      ⟨2026, 10, 12, 9, 0⟩ (by decide) (by decide) (by decide)).2.2.1
    rw [h]
    decide

/-- C4: for a recurrence literal outside the recognized set the Trigger
Calculator fails with the invalid-recurrence error; the failure is fatal
only to that single scheduling attempt: recovery over a collection
containing such a record raises nothing, registers no timer for that
record, and still schedules every schedulable other record. -/
theorem invalid_recurrence_fails_only_that_job (t : DateTime) (rep : String)
    (hrep : recognized_recurrence rep = false) :
    build_rule t rep = .error .invalidRecurrence ∧
    ∀ (store : List Announcement) (now : DateTime) (a : Announcement),
      a ∈ store → a.repeating = rep →
      (∀ b ∈ store, parses_ok b = true) →
      (∀ b ∈ store, ∀ c ∈ store, b.id = c.id → b = c) →
      ((load_and_reschedule_announcements store now).error = none ∧
       (∀ j ∈ (load_and_reschedule_announcements store now).jobs, j.1 ≠ a.id) ∧
       (∀ b ∈ store, is_missed now b = false → recognized_recurrence b.repeating = true →
         ∃ j ∈ (load_and_reschedule_announcements store now).jobs, j.1 = b.id)) := by
  constructor
  · cases hbr : build_rule t rep with
    | error e =>
      cases e
      rfl
    | ok trig =>
      have := (build_rule_ok_iff_recognized t rep).mp ⟨trig, hbr⟩
      rw [this] at hrep
      exact absurd hrep (by simp)
  · intro store now a ha harep hvalid huniq
    refine ⟨(reschedule_loop_complete now store store [] 0 0 hvalid).1, ?_, ?_⟩
    · intro j hj heq
      rcases reschedule_loop_jobs_from now store store [] 0 0 j hj with
        h | ⟨b, hb, hbid, _, _, hbrec⟩
      · exact absurd h (List.not_mem_nil j)
      · have hba : b = a := huniq b hb a ha (by rw [hbid, heq])
        rw [hba, harep, hrep] at hbrec
        exact absurd hbrec (by simp)
    · intro b hb hbnm hbrec
      apply reschedule_loop_mem now store store [] 0 0 b hb hvalid hbnm hbrec
      intro c hc hcid
      have hcb : c = b := huniq c hc b hb hcid
      rw [hcb, removes_id]
      simp [hbrec]

/-- Witness for C4: the unknown literal fortnightly fails the calculator,
and recovery over a store holding that record plus a weekly one still
completes and schedules the weekly one. -/
theorem invalid_recurrence_fails_only_that_job_witness :
    recognized_recurrence "fortnightly" = false ∧
    build_rule ⟨2026, 1, 1, 9, 0⟩ "fortnightly" = .error .invalidRecurrence ∧
    (load_and_reschedule_announcements
      [⟨"q1", "custom", "x", none, none, .valid ⟨2026, 1, 1, 9, 0⟩, "fortnightly", 1, 2, "c"⟩,
       ⟨"k1", "custom", "z", none, none, .valid ⟨2026, 1, 1, 9, 0⟩, "weekly", 1, 2, "c"⟩]
      ⟨2026, 10, 12, 9, 0⟩).error = none := by
  refine ⟨by decide, ?_, ?_⟩
  · exact (invalid_recurrence_fails_only_that_job ⟨2026, 1, 1, 9, 0⟩ "fortnightly"
      (by decide)).1
  · exact ((invalid_recurrence_fails_only_that_job ⟨2026, 1, 1, 9, 0⟩ "fortnightly"
      (by decide)).2
      [⟨"q1", "custom", "x", none, none, .valid ⟨2026, 1, 1, 9, 0⟩, "fortnightly", 1, 2, "c"⟩,
       ⟨"k1", "custom", "z", none, none, .valid ⟨2026, 1, 1, 9, 0⟩, "weekly", 1, 2, "c"⟩]
      ⟨2026, 10, 12, 9, 0⟩
      ⟨"q1", "custom", "x", none, none, .valid ⟨2026, 1, 1, 9, 0⟩, "fortnightly", 1, 2, "c"⟩
      (by decide) rfl (by decide) (by decide)).1

/-- Counterexample to C5 as stated: a collection whose first record has
an unparseable stored datetime and whose second is schedulable alone; the
loop has no try/except, so the exception propagates and the second
record never gets a timer. -/
theorem recovery_error_not_caught_counterexample :
    (load_and_reschedule_announcements
      [⟨"g1", "custom", "y", none, none, .valid ⟨2030, 1, 1, 9, 0⟩, "none", 1, 2, "c"⟩]
      ⟨2026, 10, 12, 9, 0⟩).error = none ∧
    (load_and_reschedule_announcements
      [⟨"g1", "custom", "y", none, none, .valid ⟨2030, 1, 1, 9, 0⟩, "none", 1, 2, "c"⟩]
      ⟨2026, 10, 12, 9, 0⟩).jobs ≠ [] ∧
    (load_and_reschedule_announcements
      [⟨"b1", "custom", "x", none, none, .invalid, "none", 1, 2, "c"⟩,
       ⟨"g1", "custom", "y", none, none, .valid ⟨2030, 1, 1, 9, 0⟩, "none", 1, 2, "c"⟩]
      ⟨2026, 10, 12, 9, 0⟩).jobs = [] ∧
    (load_and_reschedule_announcements
      [⟨"b1", "custom", "x", none, none, .invalid, "none", 1, 2, "c"⟩,
       ⟨"g1", "custom", "y", none, none, .valid ⟨2030, 1, 1, 9, 0⟩, "none", 1, 2, "c"⟩]
      ⟨2026, 10, 12, 9, 0⟩).error = some "ValueError" := by
  decide

/-- C5 as amended: an exception raised while scheduling one stored
announcement is not caught by the recovery loop: it propagates, the
announcements after the failing one are never scheduled, and only the
announcements before it keep their timers. -/
theorem recovery_scheduling_error_aborts_rest
    (pre post : List Announcement) (bad : Announcement) (now : DateTime)
    (hpre : ∀ a ∈ pre, parses_ok a = true)
    (hbad : parses_ok bad = false)
    (huniq : ∀ a ∈ pre, ∀ b ∈ pre, a.id = b.id → a = b) :
    ((load_and_reschedule_announcements (pre ++ bad :: post) now).error).isSome = true ∧
    (∀ a ∈ pre, is_missed now a = false → recognized_recurrence a.repeating = true →
      ∃ j ∈ (load_and_reschedule_announcements (pre ++ bad :: post) now).jobs,
        j.1 = a.id) ∧
    (∀ a ∈ post, (∀ b ∈ pre, b.id ≠ a.id) →
      ∀ j ∈ (load_and_reschedule_announcements (pre ++ bad :: post) now).jobs,
        j.1 ≠ a.id) := by
  have hbdt : bad.datetime = .invalid := by
    cases hdt : bad.datetime with
    | valid d => rw [parses_ok, hdt] at hbad; exact absurd hbad (by simp)
    | invalid => rfl
  have hmain : load_and_reschedule_announcements (pre ++ bad :: post) now =
      ⟨(reschedule_loop now [] 0 0 (pre ++ bad :: post) pre).jobs,
       (reschedule_loop now [] 0 0 (pre ++ bad :: post) pre).rescheduled,
       (reschedule_loop now [] 0 0 (pre ++ bad :: post) pre).skipped,
       pre ++ bad :: post, some "ValueError"⟩ := by
    rw [load_and_reschedule_announcements,
      reschedule_loop_append now (pre ++ bad :: post) pre (bad :: post) [] 0 0 hpre]
    have h2 := (reschedule_loop_complete now (pre ++ bad :: post) pre [] 0 0 hpre).2.1
    simp [reschedule_loop, fromisoformat, hbdt, h2]
  rw [hmain]
  refine ⟨rfl, ?_, ?_⟩
  · intro a ha hnm hrec
    apply reschedule_loop_mem now (pre ++ bad :: post) pre [] 0 0 a ha hpre hnm hrec
    intro b hb hbid
    have hba : b = a := huniq b hb a ha hbid
    rw [hba, removes_id]
    simp [hrec]
  · intro a ha hdiff j hj heq
    rcases reschedule_loop_jobs_from now (pre ++ bad :: post) pre [] 0 0 j hj with
      h | ⟨b, hb, hbid, _⟩
    · exact absurd h (List.not_mem_nil j)
    · exact hdiff b hb (by rw [hbid, heq])

/-- Witness for the amended C5: with a good record, then the unparseable
one, then another good record, recovery aborts with the exception while
the first record keeps its timer. -/
theorem recovery_scheduling_error_aborts_rest_witness :
    (∀ a ∈ [(⟨"g1", "custom", "y", none, none, .valid ⟨2030, 1, 1, 9, 0⟩, "none", 1, 2, "c"⟩ :
      Announcement)], parses_ok a = true) ∧
    parses_ok ⟨"b1", "custom", "x", none, none, .invalid, "none", 1, 2, "c"⟩ = false ∧
    ((load_and_reschedule_announcements
      ([⟨"g1", "custom", "y", none, none, .valid ⟨2030, 1, 1, 9, 0⟩, "none", 1, 2, "c"⟩] ++
        ⟨"b1", "custom", "x", none, none, .invalid, "none", 1, 2, "c"⟩ ::
        [⟨"g2", "custom", "z", none, none, .valid ⟨2030, 1, 2, 9, 0⟩, "none", 1, 2, "c"⟩])
      ⟨2026, 10, 12, 9, 0⟩).error).isSome = true := by
  refine ⟨by decide, by decide, ?_⟩
  exact (recovery_scheduling_error_aborts_rest
    [⟨"g1", "custom", "y", none, none, .valid ⟨2030, 1, 1, 9, 0⟩, "none", 1, 2, "c"⟩]
    [⟨"g2", "custom", "z", none, none, .valid ⟨2030, 1, 2, 9, 0⟩, "none", 1, 2, "c"⟩]
    ⟨"b1", "custom", "x", none, none, .invalid, "none", 1, 2, "c"⟩
    ⟨2026, 10, 12, 9, 0⟩ (by decide) (by decide) (by decide)).1
